import Mathlib

/-!
# Verification of the make-api-request-js protocol core

Shallow embedding of the repository's protocol-handling core:

* `RetryConfig` (retry/backoff policy) — translated from the TypeScript
  class `RetryConfig` (constructor, `matchesCode`, `shouldRetry`,
  `calcNextDelay`).  JavaScript numbers are modelled as rationals `ℚ`;
  every arithmetic operation used by the source (`*`, `min`, comparisons)
  is exact on the values involved.
* A Server-Sent-Events decoding pipeline (UTF-8 incremental decoder,
  frame extraction, frame parsing, JSON payload decoding), modelled from
  the specification since the decoder implementation ships only with its
  tests.
* OAuth2 `TokenManager` (`applyAuth` / `setValue`) and the
  `ApiPromise.asEventStream` access guards, likewise modelled from the
  specification.
-/

namespace MakeRequest

/-- `RetryStrategy`: the partial configuration record.  Every field is
optional, mirroring `maxRetries?: number` etc. in the source. -/
structure RetryStrategy where
  maxRetries : Option ℚ := none
  statusCodes : Option (List ℚ) := none
  initialDelay : Option ℚ := none
  maxDelay : Option ℚ := none
  backoffFactor : Option ℚ := none
  deriving Repr

/-- `RetryConfig`: the resolved configuration, all fields present. -/
structure RetryConfig where
  maxRetries : ℚ
  statusCodes : List ℚ
  initialDelay : ℚ
  maxDelay : ℚ
  backoffFactor : ℚ
  deriving Repr

/-- The `RetryConfig` constructor.  Each field is
`override?.field ?? base?.field ?? default`, where `??` is JavaScript's
nullish coalescing; `o?.field` on a possibly-undefined object is
`Option.bind`.  Defaults: `maxRetries = 5`,
`statusCodes = [5, 408, 409, 429]`, `initialDelay = 500`,
`maxDelay = 10000`, `backoffFactor = 2.0`. -/
def RetryConfig.make (base override : Option RetryStrategy) : RetryConfig where
  maxRetries :=
    ((override.bind RetryStrategy.maxRetries).orElse
      fun _ => base.bind RetryStrategy.maxRetries).getD 5
  statusCodes :=
    ((override.bind RetryStrategy.statusCodes).orElse
      fun _ => base.bind RetryStrategy.statusCodes).getD [5, 408, 409, 429]
  initialDelay :=
    ((override.bind RetryStrategy.initialDelay).orElse
      fun _ => base.bind RetryStrategy.initialDelay).getD 500
  maxDelay :=
    ((override.bind RetryStrategy.maxDelay).orElse
      fun _ => base.bind RetryStrategy.maxDelay).getD 10000
  backoffFactor :=
    ((override.bind RetryStrategy.backoffFactor).orElse
      fun _ => base.bind RetryStrategy.backoffFactor).getD 2

/-- `RetryConfig.matchesCode`: a retry code below 6 is a class code and
matches the whole hundred-range (`retryCode * 100 <= statusCode &&
statusCode < (retryCode + 1) * 100`); any other code matches only by
exact equality (`statusCode === retryCode`). -/
def RetryConfig.matchesCode (statusCode retryCode : ℚ) : Bool :=
  if retryCode < 6 then
    decide (retryCode * 100 ≤ statusCode) && decide (statusCode < (retryCode + 1) * 100)
  else
    statusCode == retryCode

/-- `RetryConfig.shouldRetry`: `attempt <= this.maxRetries &&
this.statusCodes.some(retryCode => this.matchesCode({statusCode, retryCode}))`. -/
def RetryConfig.shouldRetry (cfg : RetryConfig) (attempt statusCode : ℚ) : Bool :=
  decide (attempt ≤ cfg.maxRetries) &&
    cfg.statusCodes.any fun retryCode => RetryConfig.matchesCode statusCode retryCode

/-- `RetryConfig.calcNextDelay`:
`Math.min(this.maxDelay, currDelay * this.backoffFactor)`.
`Math.min(a, b)` on non-NaN numbers is the smaller of the two; it is
written here as an explicit comparison so the definition evaluates by
reduction. -/
def RetryConfig.calcNextDelay (cfg : RetryConfig) (currDelay : ℚ) : ℚ :=
  if cfg.maxDelay ≤ currDelay * cfg.backoffFactor then cfg.maxDelay
  else currDelay * cfg.backoffFactor

/-- The default configuration, i.e. `new RetryConfig({})`. -/
def defaultRetryConfig : RetryConfig := RetryConfig.make none none

/-- Matching rule as the specification words it, for refinement comparison
with `RetryConfig.matchesCode`: a single-digit configured code `N` (a digit,
`0 ≤ N ≤ 9`) matches the whole range `[N*100, (N+1)*100)`, any other code
matches only by exact equality. -/
def specMatchesCode (statusCode retryCode : ℚ) : Bool :=
  if 0 ≤ retryCode ∧ retryCode ≤ 9 then
    decide (retryCode * 100 ≤ statusCode) && decide (statusCode < (retryCode + 1) * 100)
  else
    statusCode == retryCode

/-- `shouldRetry` as the specification words it, for refinement comparison
with `RetryConfig.shouldRetry`: `attempt ≤ maxRetries` and some configured
code matches per `specMatchesCode`. -/
def specShouldRetry (cfg : RetryConfig) (attempt statusCode : ℚ) : Bool :=
  decide (attempt ≤ cfg.maxRetries) &&
    cfg.statusCodes.any fun retryCode => specMatchesCode statusCode retryCode

/-- Field-level merge relation: `v` is the override's field when present,
else the base's field when present, else the default `d`. -/
def overrideMerge {α : Type} (o b : Option α) (d v : α) : Prop :=
  match o with
  | some x => v = x
  | none =>
    match b with
    | some y => v = y
    | none => v = d

/-! ### Server-Sent-Events decoding

The event-stream decoder implementation ships in this repository only with
its test suite, so the pipeline below is modelled from the specification:
a stateful UTF-8 decoder across chunk boundaries, a text buffer from which
complete frames (delimited by a blank line) are repeatedly extracted with
the trailing partial frame retained, per-frame `field: value` parsing, and
an attempted JSON decode of the joined `data` payload falling back to the
raw string. -/

/-- Modelled from the spec: JSON values as produced by decoding an SSE
`data` payload (the SSE decoder "attempts JSON-decoding" the joined data
lines).  Strings are lists of characters; numbers cover the integer
subset used by the event payloads. -/
inductive Json where
  | null : Json
  | bool (b : Bool) : Json
  | num (n : Int) : Json
  | str (s : List Char) : Json
  | arr (elems : List Json) : Json
  | obj (members : List (List Char × Json)) : Json

/-- Modelled from the spec: the decoded payload of a stream event — either
a successfully JSON-decoded value or the raw string kept after a failed
JSON decode ("on failure, keep the raw string ... this is not an error"). -/
inductive SseData where
  | json (j : Json) : SseData
  | raw (s : List Char) : SseData

/-- Modelled from the spec: `StreamEvent` — `{eventType (default
"message"), id (empty if absent), retryHintMs (empty if absent), data}`. -/
structure StreamEvent where
  eventType : List Char
  id : List Char
  retryHint : Option Int
  data : SseData

/-- Skip JSON whitespace. -/
def skipWs : List Char → List Char
  | c :: rest =>
    if c = ' ' ∨ c = '\n' ∨ c = '\t' ∨ c = '\r' then skipWs rest else c :: rest
  | [] => []

/-- JSON string escape characters (the common single-character escapes). -/
def escChar (c : Char) : Option Char :=
  if c = '"' then some '"'
  else if c = '\\' then some '\\'
  else if c = '/' then some '/'
  else if c = 'n' then some '\n'
  else if c = 't' then some '\t'
  else if c = 'r' then some '\r'
  else if c = 'b' then some (Char.ofNat 8)
  else if c = 'f' then some (Char.ofNat 12)
  else none

/-- Parse a JSON string body after the opening quote; returns the decoded
content and the remainder after the closing quote. -/
def jsonString : List Char → Option (List Char × List Char)
  | [] => none
  | '"' :: rest => some ([], rest)
  | '\\' :: e :: rest =>
    match escChar e with
    | none => none
    | some c => (jsonString rest).map fun p => (c :: p.1, p.2)
  | c :: rest => (jsonString rest).map fun p => (c :: p.1, p.2)

/-- Decimal digit value. -/
def digitVal (c : Char) : Option Nat :=
  if '0' ≤ c ∧ c ≤ '9' then some (c.toNat - 48) else none

/-- Greedily consume decimal digits, accumulating their value. -/
def jsonDigitsAux : Nat → List Char → Nat × List Char
  | acc, [] => (acc, [])
  | acc, c :: rest =>
    match digitVal c with
    | none => (acc, c :: rest)
    | some d => jsonDigitsAux (acc * 10 + d) rest

/-- Parse a nonempty run of decimal digits as a natural number. -/
def jsonDigits : List Char → Option (Nat × List Char)
  | [] => none
  | c :: rest =>
    match digitVal c with
    | some d => some (jsonDigitsAux d rest)
    | none => none

mutual

/-- Modelled from the spec: recursive-descent parser for a JSON value
(object, array, string, integer, `true`/`false`/`null`), fuel-indexed so
the recursion is structural.  Returns the value and the unconsumed
remainder. -/
def jsonValue : Nat → List Char → Option (Json × List Char)
  | 0, _ => none
  | fuel + 1, cs =>
    match skipWs cs with
    | '{' :: rest =>
      match skipWs rest with
      | '}' :: rest2 => some (.obj [], rest2)
      | _ => (jsonMembers fuel (skipWs rest)).map fun p => (Json.obj p.1, p.2)
    | '[' :: rest =>
      match skipWs rest with
      | ']' :: rest2 => some (.arr [], rest2)
      | _ => (jsonElems fuel (skipWs rest)).map fun p => (Json.arr p.1, p.2)
    | '"' :: rest => (jsonString rest).map fun p => (Json.str p.1, p.2)
    | 't' :: 'r' :: 'u' :: 'e' :: rest => some (.bool true, rest)
    | 'f' :: 'a' :: 'l' :: 's' :: 'e' :: rest => some (.bool false, rest)
    | 'n' :: 'u' :: 'l' :: 'l' :: rest => some (.null, rest)
    | '-' :: rest =>
      (jsonDigits rest).map fun p => (Json.num (-(p.1 : Int)), p.2)
    | c :: rest =>
      if (digitVal c).isSome then
        (jsonDigits (c :: rest)).map fun p => (Json.num (p.1 : Int), p.2)
      else none
    | [] => none

/-- Parse the members of a JSON object after the opening brace (nonempty
case), up to and including the closing brace. -/
def jsonMembers : Nat → List Char → Option (List (List Char × Json) × List Char)
  | 0, _ => none
  | fuel + 1, cs =>
    match skipWs cs with
    | '"' :: rest =>
      match jsonString rest with
      | none => none
      | some (key, rest2) =>
        match skipWs rest2 with
        | ':' :: rest3 =>
          match jsonValue fuel rest3 with
          | none => none
          | some (v, rest4) =>
            match skipWs rest4 with
            | ',' :: rest5 =>
              (jsonMembers fuel rest5).map fun p => ((key, v) :: p.1, p.2)
            | '}' :: rest5 => some ([(key, v)], rest5)
            | _ => none
        | _ => none
    | _ => none

/-- Parse the elements of a JSON array after the opening bracket (nonempty
case), up to and including the closing bracket. -/
def jsonElems : Nat → List Char → Option (List Json × List Char)
  | 0, _ => none
  | fuel + 1, cs =>
    match jsonValue fuel cs with
    | none => none
    | some (v, rest) =>
      match skipWs rest with
      | ',' :: rest2 => (jsonElems fuel rest2).map fun p => (v :: p.1, p.2)
      | ']' :: rest2 => some ([v], rest2)
      | _ => none

end

/-- Modelled from the spec: attempt to JSON-decode a complete string
(the whole input must be consumed, up to trailing whitespace). -/
def parseJson (cs : List Char) : Option Json :=
  match jsonValue (cs.length + 1) cs with
  | some (v, rest) => if skipWs rest = [] then some v else none
  | none => none

/-- Length of the blank-line frame delimiter at the head of the buffer:
2 for `"\n\n"`, 4 for `"\r\n\r\n"`, 0 if none. -/
def delimLen (cs : List Char) : Nat :=
  if cs.take 2 = ['\n', '\n'] then 2
  else if cs.take 4 = ['\r', '\n', '\r', '\n'] then 4
  else 0

/-- Find the earliest complete frame in the buffer: the text before the
leftmost blank-line delimiter, and the remainder after the delimiter. -/
def findFrameEnd : List Char → Option (List Char × List Char)
  | [] => none
  | c :: rest =>
    if delimLen (c :: rest) = 0 then
      (findFrameEnd rest).map fun p => (c :: p.1, p.2)
    else
      some ([], (c :: rest).drop (delimLen (c :: rest)))

/-- Repeatedly extract complete frames from the buffer (fuel-indexed so the
recursion is structural; the buffer length is always sufficient fuel). -/
def splitFramesFuel : Nat → List Char → List (List Char) × List Char
  | 0, cs => ([], cs)
  | fuel + 1, cs =>
    match findFrameEnd cs with
    | none => ([], cs)
    | some (f, rest) =>
      let p := splitFramesFuel fuel rest
      (f :: p.1, p.2)

/-- Modelled from the spec: "repeatedly extract complete frames delimited
by a blank line; retain any trailing partial frame for the next chunk". -/
def splitFrames (cs : List Char) : List (List Char) × List Char :=
  splitFramesFuel cs.length cs

/-- Split a frame into lines at `'\n'`. -/
def splitOnNl : List Char → List (List Char)
  | [] => [[]]
  | '\n' :: rest => [] :: splitOnNl rest
  | c :: rest =>
    match splitOnNl rest with
    | l :: ls => (c :: l) :: ls
    | [] => [[c]]

/-- Drop a single trailing carriage return from a line. -/
def dropTrailingCr (l : List Char) : List Char :=
  match l.reverse with
  | '\r' :: t => t.reverse
  | _ => l

/-- Split a line at the first colon. -/
def splitFirstColon : List Char → Option (List Char × List Char)
  | [] => none
  | ':' :: rest => some ([], rest)
  | c :: rest => (splitFirstColon rest).map fun p => (c :: p.1, p.2)

/-- Trim a single leading space from a field value. -/
def trimOneSpace : List Char → List Char
  | ' ' :: rest => rest
  | l => l

/-- Modelled from the spec: a recognized line is `field: value` (split on
the first colon only; a single leading space in the value is trimmed);
lines beginning with `:` are comments and ignored; a line with no colon is
a bare field name with empty value. -/
def parseFieldLine (line : List Char) : Option (List Char × List Char) :=
  match line with
  | ':' :: _ => none
  | _ =>
    match splitFirstColon line with
    | some p => some (p.1, trimOneSpace p.2)
    | none => some (line, [])

/-- Join repeated `data` payload lines with `"\n"`. -/
def joinNl : List (List Char) → List Char
  | [] => []
  | [d] => d
  | d :: ds => d ++ '\n' :: joinNl ds

/-- Modelled from the spec: parse one frame into a stream event.  The
recognized fields are `event` (defaulting to `"message"`), `data`
(repeatable, newline-joined, then JSON-decoded with raw-string fallback),
`id`, and `retry` (an integer millisecond count); unrecognized fields are
ignored; a frame with no recognized fields yields no event. -/
def parseFrame (frame : List Char) : Option StreamEvent :=
  let fields := ((splitOnNl frame).map dropTrailingCr).filterMap parseFieldLine
  let events := fields.filterMap fun p => if p.1 = "event".toList then some p.2 else none
  let datas := fields.filterMap fun p => if p.1 = "data".toList then some p.2 else none
  let ids := fields.filterMap fun p => if p.1 = "id".toList then some p.2 else none
  let retries := fields.filterMap fun p => if p.1 = "retry".toList then some p.2 else none
  if events = [] ∧ datas = [] ∧ ids = [] ∧ retries = [] then none
  else
    let dataStr := joinNl datas
    some
      { eventType := (events.getLast?).getD "message".toList
        id := (ids.getLast?).getD []
        retryHint := (retries.getLast?).bind fun r =>
          match jsonDigits r with
          | some (n, []) => some (n : Int)
          | _ => none
        data :=
          match parseJson dataStr with
          | some j => SseData.json j
          | none => SseData.raw dataStr }

/-- Expected UTF-8 sequence length for a lead byte (0 for an invalid lead). -/
def utf8LeadLen (b : Nat) : Nat :=
  if b < 128 then 1
  else if b < 192 then 0
  else if b < 224 then 2
  else if b < 240 then 3
  else if b < 248 then 4
  else 0

/-- Combine a complete UTF-8 byte sequence into a code point. -/
def utf8Combine : List Nat → Nat
  | [b] => b % 128
  | [b1, b2] => (b1 % 32) * 64 + b2 % 64
  | [b1, b2, b3] => (b1 % 16) * 4096 + (b2 % 64) * 64 + b3 % 64
  | [b1, b2, b3, b4] => (b1 % 8) * 262144 + (b2 % 64) * 4096 + (b3 % 64) * 64 + b4 % 64
  | _ => 0xFFFD

/-- Modelled from the spec: one step of the stateful UTF-8 decoder — append
the byte to the pending partial sequence, emitting a character once the
sequence is complete (an invalid lead byte emits the replacement
character). -/
def utf8Push (pending : List Nat) (b : Nat) : List Nat × Option Char :=
  let bs := pending ++ [b]
  match bs with
  | [] => ([], none)
  | lead :: _ =>
    let n := utf8LeadLen lead
    if n = 0 then ([], some (Char.ofNat 0xFFFD))
    else if bs.length = n then ([], some (Char.ofNat (utf8Combine bs)))
    else (bs, none)

/-- Feed a byte chunk through the stateful UTF-8 decoder, returning the new
pending state and the decoded characters. -/
def utf8FeedBytes : List Nat → List Nat → List Nat × List Char
  | pending, [] => (pending, [])
  | pending, b :: bs =>
    let r1 := utf8Push pending b
    let r2 := utf8FeedBytes r1.1 bs
    (r2.1, r1.2.toList ++ r2.2)

/-- The decoder's cross-chunk state: the partially-decoded multi-byte
character tail and the accumulated not-yet-framed text (the DecodeBuffer). -/
structure DecoderState where
  pendingBytes : List Nat
  buffer : List Char

/-- The decoder's starting state. -/
def initDecoderState : DecoderState := ⟨[], []⟩

/-- Modelled from the spec: feed one byte chunk — decode bytes to text
across chunk boundaries, append to the buffer, extract all complete
frames, retain the trailing partial frame, and emit one event per
non-empty frame in arrival order. -/
def feedChunk (st : DecoderState) (chunk : List Nat) : DecoderState × List StreamEvent :=
  let r := utf8FeedBytes st.pendingBytes chunk
  let p := splitFrames (st.buffer ++ r.2)
  (⟨r.1, p.2⟩, p.1.filterMap parseFrame)

/-- Feed a sequence of byte chunks, accumulating the emitted events. -/
def feedChunks (st : DecoderState) : List (List Nat) → DecoderState × List StreamEvent
  | [] => (st, [])
  | chunk :: rest =>
    let r1 := feedChunk st chunk
    let r2 := feedChunks r1.1 rest
    (r2.1, r1.2 ++ r2.2)

/-- All events emitted by the decoder over a chunked byte stream. -/
def decodeChunks (chunks : List (List Nat)) : List StreamEvent :=
  (feedChunks initDecoderState chunks).2

/-- UTF-8 encode one character. -/
def utf8EncodeChar (c : Char) : List Nat :=
  let n := c.toNat
  if n < 128 then [n]
  else if n < 2048 then [192 + n / 64, 128 + n % 64]
  else if n < 65536 then [224 + n / 4096, 128 + (n / 64) % 64, 128 + n % 64]
  else [240 + n / 262144, 128 + (n / 4096) % 64, 128 + (n / 64) % 64, 128 + n % 64]

/-- UTF-8 encode a string (serialization side of the SSE wire format). -/
def utf8Encode (s : List Char) : List Nat :=
  s.foldr (fun c acc => utf8EncodeChar c ++ acc) []

/-! ### Response stream access and the OAuth2 credential lifecycle

The `ApiPromise` / OAuth2 `TokenManager` implementations ship in this
repository only with their tests, so the models below follow the
specification. -/

/-- Modelled from the spec: the error kinds involved in stream access and
credential configuration (`StreamFormatError`, `ConfigurationError`). -/
inductive ApiError where
  | streamFormatError (msg : List Char) : ApiError
  | configurationError (msg : List Char) : ApiError
  deriving DecidableEq

/-- Modelled from the spec: the resolution options of a pending response
(`responseRaw` = `wantRaw`, `responseStream` = `wantStream`). -/
structure ResponseOpts where
  responseRaw : Bool
  responseStream : Bool

/-- Modelled from the spec: a transport-level response descriptor — the
status and an optional body given as a chunked byte stream (`none` when
the body is undefined). -/
structure ResponseModel where
  status : Nat
  body : Option (List (List Nat))

/-- Modelled from the spec: accessing the event stream of a response
resolution (`asEventStream`).  When `wantStream` is false it fails with
`StreamFormatError("Response is not an event stream")`; when the body is
undefined it fails with `StreamFormatError("Response body is undefined")`;
otherwise it resolves to the decoded event sequence. -/
def asEventStream (opts : ResponseOpts) (resp : ResponseModel) :
    Except ApiError (List StreamEvent) :=
  if !opts.responseStream then
    .error (.streamFormatError "Response is not an event stream".toList)
  else
    match resp.body with
    | none => .error (.streamFormatError "Response body is undefined".toList)
    | some chunks => .ok (decodeChunks chunks)

/-- Modelled from the spec: the OAuth2 token manager's mutable state — the
cached TokenRecord fields (access token and expiry instant in epoch
milliseconds), absent when nothing is cached. -/
structure OAuth2State where
  accessToken : Option (List Char)
  expiresAt : Option Int

/-- Modelled from the spec: a TokenRecord — `{accessToken, expiresAt}`,
written only by `refresh()`. -/
structure TokenRecord where
  accessToken : List Char
  expiresAt : Int

/-- The observable network effect of `applyAuth`: a call to the token
endpoint. -/
inductive AuthEffect where
  | refreshCall : AuthEffect
  deriving DecidableEq

/-- Modelled from the spec: an OAuth2 provider has no fixed literal value,
so the set-literal-credential operation `setValue` unconditionally fails
with `ConfigurationError` and can never produce a new state. -/
def OAuth2.setValue (st : OAuth2State) (value : List Char) :
    Except ApiError OAuth2State :=
  .error (.configurationError
    "an OAuth2 auth provider cannot be used as a requestMutator".toList)

/-- The manager state after a `setValue` call: the caller keeps the old
state when the call throws. -/
def OAuth2.setValueRun (st : OAuth2State) (value : List Char) : OAuth2State :=
  match OAuth2.setValue st value with
  | .ok st' => st'
  | .error _ => st

/-- Modelled from the spec: is a cached TokenRecord present and not yet
expired at instant `now`?  A missing token, a missing expiry, or
`now ≥ expiresAt` all require a refresh before use. -/
def OAuth2.hasValidToken (st : OAuth2State) (now : Int) : Bool :=
  match st.accessToken, st.expiresAt with
  | some _, some exp => decide (now < exp)
  | _, _ => false

/-- Modelled from the spec: `applyAuth` — when a cached, unexpired
TokenRecord exists, attach `Authorization: Bearer <accessToken>` and
return without network access; otherwise perform one `refresh` call
(recorded as an effect; `freshTok` is the record built from the token
endpoint's response), cache it, and attach the fresh bearer token.
Returns the new state, the network effects performed, and the request's
headers. -/
def OAuth2.applyAuth (st : OAuth2State) (now : Int) (freshTok : TokenRecord)
    (headers : List (List Char × List Char)) :
    OAuth2State × List AuthEffect × List (List Char × List Char) :=
  match st.accessToken, st.expiresAt with
  | some tok, some exp =>
    if now < exp then
      (st, [], headers ++ [("Authorization".toList, "Bearer ".toList ++ tok)])
    else
      (⟨some freshTok.accessToken, some freshTok.expiresAt⟩, [.refreshCall],
        headers ++
          [("Authorization".toList, "Bearer ".toList ++ freshTok.accessToken)])
  | _, _ =>
    (⟨some freshTok.accessToken, some freshTok.expiresAt⟩, [.refreshCall],
      headers ++
        [("Authorization".toList, "Bearer ".toList ++ freshTok.accessToken)])

end MakeRequest

namespace MakeRequest

/-! ## Helper lemmas for the retry policy -/

theorem matchesCode_iff (s c : ℚ) :
    RetryConfig.matchesCode s c = true ↔
      (c < 6 ∧ c * 100 ≤ s ∧ s < (c + 1) * 100) ∨ (6 ≤ c ∧ s = c) := by
  by_cases hc : c < 6
  · simp [RetryConfig.matchesCode, hc, not_le.mpr hc, and_assoc]
  · simp [RetryConfig.matchesCode, hc, not_lt.mp hc, beq_iff_eq]

theorem calcNextDelay_eq_min (cfg : RetryConfig) (d : ℚ) :
    cfg.calcNextDelay d = min cfg.maxDelay (d * cfg.backoffFactor) := by
  rw [RetryConfig.calcNextDelay, min_def]

theorem merge_getD_spec {α : Type} (o b : Option α) (d : α) :
    overrideMerge o b d ((o.orElse fun _ => b).getD d) := by
  cases o with
  | some x => rfl
  | none =>
    cases b with
    | some y => rfl
    | none => rfl

theorem default_backoffFactor : defaultRetryConfig.backoffFactor = 2 := rfl

theorem default_maxDelay : defaultRetryConfig.maxDelay = 10000 := rfl

theorem default_maxRetries : defaultRetryConfig.maxRetries = 5 := rfl

theorem default_statusCodes : defaultRetryConfig.statusCodes = [5, 408, 409, 429] := rfl

theorem default_initialDelay : defaultRetryConfig.initialDelay = 500 := rfl

/-! ## C1 -/

/-- C1 (counterexample): the claim says `matchesCode` is true iff
`floor(statusCode/100) = rangeCode` for every `rangeCode` in `{0..9}`; at
`statusCode = 600`, `rangeCode = 6` the code returns `false` even though
`600 / 100 = 6`, because codes `≥ 6` match only by exact equality. -/
theorem C1_counterexample :
    RetryConfig.matchesCode 600 6 = false ∧ (600 : ℕ) / 100 = 6 := by
  constructor
  · norm_num [RetryConfig.matchesCode]
  · norm_num

/-- C1 (amended): for every `rangeCode` in `{0..5}`, `matchesCode` is true
iff `floor(statusCode/100) = rangeCode`. -/
theorem C1_matchesCode_range (s r : ℕ) (h : r ≤ 5) :
    RetryConfig.matchesCode (s : ℚ) (r : ℚ) = true ↔ s / 100 = r := by
  have hr : (r : ℚ) < 6 := by exact_mod_cast Nat.lt_of_le_of_lt h (by norm_num)
  rw [matchesCode_iff]
  have h1 : ((r : ℚ) * 100 ≤ (s : ℚ)) ↔ r * 100 ≤ s := by exact_mod_cast Iff.rfl
  have h2 : ((s : ℚ) < ((r : ℚ) + 1) * 100) ↔ s < (r + 1) * 100 := by
    exact_mod_cast Iff.rfl
  have h3 : ((s : ℚ) = (r : ℚ)) ↔ s = r := by exact_mod_cast Iff.rfl
  rw [h1, h2, h3]
  constructor
  · rintro (⟨-, hle, hlt⟩ | ⟨h6, -⟩)
    · omega
    · exact absurd h6 (not_le.mpr hr)
  · intro hdiv
    exact Or.inl ⟨hr, by omega, by omega⟩

/-- C1 witness: `matchesCode 503 5` is true, and `503 / 100 = 5`. -/
theorem C1_witness :
    RetryConfig.matchesCode ((503 : ℕ) : ℚ) ((5 : ℕ) : ℚ) = true :=
  (C1_matchesCode_range 503 5 (by norm_num)).mpr (by norm_num)

end MakeRequest

namespace MakeRequest

/-! ## C2 -/

/-- C2 (counterexample): with configured `statusCodes = [6]`, the claim's
matching rule (single-digit `6` matches `[600, 700)`) makes
`shouldRetry {attempt := 1, statusCode := 600}` true, but the code returns
false: `6` is not below the code's threshold of 6, so it matches only by
exact equality. -/
theorem C2_counterexample :
    (RetryConfig.make none (some { statusCodes := some [6] })).shouldRetry 1 600 = false ∧
    specShouldRetry (RetryConfig.make none (some { statusCodes := some [6] })) 1 600 = true := by
  constructor
  · norm_num [RetryConfig.shouldRetry, RetryConfig.matchesCode, RetryConfig.make,
      List.any_cons, List.any_nil]
  · norm_num [specShouldRetry, specMatchesCode, RetryConfig.make,
      List.any_cons, List.any_nil]

/-- C2 (amended): `shouldRetry` is true iff `attempt ≤ maxRetries` and some
configured code matches, where a configured code `N` below 6 matches the
range `[N*100, (N+1)*100)` and any code `≥ 6` matches only by exact
equality; with the default configuration,
`shouldRetry {attempt := 1, statusCode := 503}` is true and
`shouldRetry {attempt := 6, statusCode := 503}` is false. -/
theorem C2_shouldRetry_characterisation :
    (∀ (cfg : RetryConfig) (attempt statusCode : ℚ),
        cfg.shouldRetry attempt statusCode = true ↔
          (attempt ≤ cfg.maxRetries ∧ ∃ c ∈ cfg.statusCodes,
            (c < 6 ∧ c * 100 ≤ statusCode ∧ statusCode < (c + 1) * 100) ∨
            (6 ≤ c ∧ statusCode = c))) ∧
    defaultRetryConfig.shouldRetry 1 503 = true ∧
    defaultRetryConfig.shouldRetry 6 503 = false := by
  refine ⟨fun cfg attempt statusCode => ?_, ?_, ?_⟩
  · simp [RetryConfig.shouldRetry, List.any_eq_true, matchesCode_iff]
  · simp only [RetryConfig.shouldRetry, default_maxRetries, default_statusCodes]
    norm_num [RetryConfig.matchesCode, List.any_cons, List.any_nil]
  · simp only [RetryConfig.shouldRetry, default_maxRetries, default_statusCodes]
    norm_num

/-! ## C3 -/

/-- C3 (counterexample): the default configuration has
`backoffFactor = 2 ≥ 1`, yet `calcNextDelay 20000 = 10000 < 20000`; the
result is capped at `maxDelay`, so `calcNextDelay(currDelay) ≥ currDelay`
fails for `currDelay > maxDelay`. -/
theorem C3_counterexample :
    1 ≤ defaultRetryConfig.backoffFactor ∧
    defaultRetryConfig.calcNextDelay 20000 < 20000 := by
  constructor
  · rw [default_backoffFactor]; norm_num
  · simp only [RetryConfig.calcNextDelay, default_maxDelay, default_backoffFactor]
    norm_num

/-- C3 (amended): for every configuration with `backoffFactor ≥ 1`,
`calcNextDelay` does not decrease the delay for any
`currDelay ∈ [0, maxDelay]`, is monotone in its argument, and is bounded
above by `maxDelay`. -/
theorem C3_calcNextDelay_props (cfg : RetryConfig) (hf : 1 ≤ cfg.backoffFactor) :
    (∀ d : ℚ, 0 ≤ d → d ≤ cfg.maxDelay → d ≤ cfg.calcNextDelay d) ∧
    (∀ d e : ℚ, d ≤ e → cfg.calcNextDelay d ≤ cfg.calcNextDelay e) ∧
    (∀ d : ℚ, cfg.calcNextDelay d ≤ cfg.maxDelay) := by
  have hf0 : (0 : ℚ) ≤ cfg.backoffFactor := le_trans zero_le_one hf
  refine ⟨fun d hd hdm => ?_, fun d e hde => ?_, fun d => ?_⟩
  · rw [calcNextDelay_eq_min]
    refine le_min hdm ?_
    calc d = d * 1 := (mul_one d).symm
    _ ≤ d * cfg.backoffFactor := mul_le_mul_of_nonneg_left hf hd
  · rw [calcNextDelay_eq_min, calcNextDelay_eq_min]
    exact min_le_min le_rfl (mul_le_mul_of_nonneg_right hde hf0)
  · rw [calcNextDelay_eq_min]
    exact min_le_left _ _

/-- C3 witness: the amended theorem applied to the default configuration
(`backoffFactor = 2 ≥ 1`) at `currDelay = 500`. -/
theorem C3_witness :
    defaultRetryConfig.calcNextDelay 500 ≤ defaultRetryConfig.maxDelay :=
  (C3_calcNextDelay_props defaultRetryConfig
    (by rw [default_backoffFactor]; norm_num)).2.2 500

/-! ## C4 -/

/-- C4: `calcNextDelay(currDelay) = min(maxDelay, currDelay * backoffFactor)`
for every configuration; with the defaults `calcNextDelay 500 = 1000`,
iterating from `initialDelay = 500` reaches `10000` after five steps,
`10000` is a fixed point, and every later iterate stays at `10000`. -/
theorem C4_calcNextDelay_formula :
    (∀ (cfg : RetryConfig) (currDelay : ℚ),
        cfg.calcNextDelay currDelay = min cfg.maxDelay (currDelay * cfg.backoffFactor)) ∧
    defaultRetryConfig.calcNextDelay 500 = 1000 ∧
    defaultRetryConfig.calcNextDelay^[5] defaultRetryConfig.initialDelay = 10000 ∧
    defaultRetryConfig.calcNextDelay 10000 = 10000 ∧
    (∀ n : ℕ, defaultRetryConfig.calcNextDelay^[n + 5] defaultRetryConfig.initialDelay
      = 10000) := by
  have hstep : ∀ d : ℚ,
      defaultRetryConfig.calcNextDelay d = if (10000 : ℚ) ≤ d * 2 then 10000 else d * 2 := by
    intro d
    rw [RetryConfig.calcNextDelay, default_maxDelay, default_backoffFactor]
  have h500 : defaultRetryConfig.calcNextDelay 500 = 1000 := by rw [hstep]; norm_num
  have h1000 : defaultRetryConfig.calcNextDelay 1000 = 2000 := by rw [hstep]; norm_num
  have h2000 : defaultRetryConfig.calcNextDelay 2000 = 4000 := by rw [hstep]; norm_num
  have h4000 : defaultRetryConfig.calcNextDelay 4000 = 8000 := by rw [hstep]; norm_num
  have h8000 : defaultRetryConfig.calcNextDelay 8000 = 10000 := by rw [hstep]; norm_num
  have hfix : defaultRetryConfig.calcNextDelay 10000 = 10000 := by rw [hstep]; norm_num
  have hiter : defaultRetryConfig.calcNextDelay^[5] defaultRetryConfig.initialDelay
      = 10000 := by
    rw [default_initialDelay, show (5 : ℕ) = 4 + 1 from rfl,
      Function.iterate_succ_apply, h500, show (4 : ℕ) = 3 + 1 from rfl,
      Function.iterate_succ_apply, h1000, show (3 : ℕ) = 2 + 1 from rfl,
      Function.iterate_succ_apply, h2000, show (2 : ℕ) = 1 + 1 from rfl,
      Function.iterate_succ_apply, h4000, show (1 : ℕ) = 0 + 1 from rfl,
      Function.iterate_succ_apply, h8000, Function.iterate_zero_apply]
  have hstay : ∀ n : ℕ, defaultRetryConfig.calcNextDelay^[n] 10000 = 10000 := by
    intro n
    induction n with
    | zero => rfl
    | succ k ih => rw [Function.iterate_succ_apply, hfix, ih]
  refine ⟨calcNextDelay_eq_min, h500, hiter, hfix, fun n => ?_⟩
  rw [Function.iterate_add_apply, hiter]
  exact hstay n

/-! ## C5 -/

/-- C5: the constructor merges configuration field by field: each of the
five fields is the override's field when present, else the base's field
when present, else the default (`maxRetries = 5`,
`statusCodes = [5, 408, 409, 429]`, `initialDelay = 500`,
`maxDelay = 10000`, `backoffFactor = 2`). -/
theorem C5_constructor_merge (base override : Option RetryStrategy) :
    overrideMerge (override.bind RetryStrategy.maxRetries)
      (base.bind RetryStrategy.maxRetries) 5
      (RetryConfig.make base override).maxRetries ∧
    overrideMerge (override.bind RetryStrategy.statusCodes)
      (base.bind RetryStrategy.statusCodes) [5, 408, 409, 429]
      (RetryConfig.make base override).statusCodes ∧
    overrideMerge (override.bind RetryStrategy.initialDelay)
      (base.bind RetryStrategy.initialDelay) 500
      (RetryConfig.make base override).initialDelay ∧
    overrideMerge (override.bind RetryStrategy.maxDelay)
      (base.bind RetryStrategy.maxDelay) 10000
      (RetryConfig.make base override).maxDelay ∧
    overrideMerge (override.bind RetryStrategy.backoffFactor)
      (base.bind RetryStrategy.backoffFactor) 2
      (RetryConfig.make base override).backoffFactor :=
  ⟨merge_getD_spec _ _ _, merge_getD_spec _ _ _, merge_getD_spec _ _ _,
    merge_getD_spec _ _ _, merge_getD_spec _ _ _⟩

/-! ## C10 -/

/-- C10: with an empty configured `statusCodes` list, `shouldRetry` is false
for every attempt and status code, so retries are entirely disabled
regardless of `maxRetries`. -/
theorem C10_empty_statusCodes (cfg : RetryConfig) (h : cfg.statusCodes = [])
    (attempt statusCode : ℚ) :
    cfg.shouldRetry attempt statusCode = false := by
  simp [RetryConfig.shouldRetry, h]

/-- C10 witness: a configuration built with `statusCodes = []` rejects a
retry at attempt 1 for status 503. -/
theorem C10_witness :
    (RetryConfig.make none (some { statusCodes := some [] })).shouldRetry 1 503 = false :=
  C10_empty_statusCodes _ rfl 1 503

end MakeRequest

namespace MakeRequest

theorem delimLen_cases (cs : List Char) :
    delimLen cs = 0 ∨ (delimLen cs = 2 ∧ 2 ≤ cs.length) ∨
      (delimLen cs = 4 ∧ 4 ≤ cs.length) := by
  unfold delimLen
  by_cases h2 : cs.take 2 = ['\n', '\n']
  · refine Or.inr (Or.inl ⟨by rw [if_pos h2], ?_⟩)
    have := congrArg List.length h2
    simp [List.length_take] at this
    omega
  · by_cases h4 : cs.take 4 = ['\r', '\n', '\r', '\n']
    · refine Or.inr (Or.inr ⟨by rw [if_neg h2, if_pos h4], ?_⟩)
      have := congrArg List.length h4
      simp [List.length_take] at this
      omega
    · exact Or.inl (by rw [if_neg h2, if_neg h4])

theorem delimLen_ne_zero_append (cs t : List Char) (h : delimLen cs ≠ 0) :
    delimLen (cs ++ t) = delimLen cs := by
  rcases delimLen_cases cs with h0 | ⟨h2, hl⟩ | ⟨h4, hl⟩
  · exact absurd h0 h
  · have ht2 : cs.take 2 = ['\n', '\n'] := by
      by_contra hc
      simp [delimLen, hc] at h2
      split at h2 <;> omega
    rw [h2]
    unfold delimLen
    rw [List.take_append_of_le_length (by omega), ht2, if_pos rfl]
  · have ht2 : ¬ cs.take 2 = ['\n', '\n'] := by
      intro hc
      simp [delimLen, hc] at h4
    have ht4 : cs.take 4 = ['\r', '\n', '\r', '\n'] := by
      by_contra hc
      simp [delimLen, ht2, hc] at h4
    rw [h4]
    unfold delimLen
    rw [List.take_append_of_le_length (show 2 ≤ cs.length by omega),
      List.take_append_of_le_length (by omega), ht4, if_neg ht2, if_pos rfl]

theorem findFrameEnd_some_le (cs f r : List Char) (h : findFrameEnd cs = some (f, r)) :
    f.length + 2 + r.length ≤ cs.length := by
  induction cs generalizing f r with
  | nil => simp [findFrameEnd] at h
  | cons c rest ih =>
    rw [findFrameEnd] at h
    by_cases hd : delimLen (c :: rest) = 0
    · rw [if_pos hd] at h
      cases hfr : findFrameEnd rest with
      | none => rw [hfr] at h; simp at h
      | some p =>
        obtain ⟨f', r'⟩ := p
        rw [hfr] at h
        simp at h
        obtain ⟨hf, hr⟩ := h
        have := ih f' r' hfr
        subst hf hr
        simp [List.length_cons]
        omega
    · rw [if_neg hd] at h
      simp only [Option.some.injEq, Prod.mk.injEq] at h
      obtain ⟨hf, hr⟩ := h
      subst hf
      subst hr
      rcases delimLen_cases (c :: rest) with h0 | ⟨h2, hl⟩ | ⟨h4, hl⟩
      · exact absurd h0 hd
      · rw [h2, List.length_drop]
        simp only [List.length_nil]
        omega
      · rw [h4, List.length_drop]
        simp only [List.length_nil]
        omega

end MakeRequest

namespace MakeRequest

theorem length_eq_two_aux {α : Type} (l : List α) (h : l.length = 2) :
    ∃ a b, l = [a, b] := List.length_eq_two.mp h

theorem delimLen_zero_append (c : Char) (rest t f r : List Char)
    (h0 : delimLen (c :: rest) = 0) (hsome : findFrameEnd rest = some (f, r)) :
    delimLen ((c :: rest) ++ t) = 0 := by
  have hlen : 2 ≤ rest.length := by
    have := findFrameEnd_some_le rest f r hsome
    omega
  have ht2 : ¬ (c :: rest).take 2 = ['\n', '\n'] := by
    intro hc
    unfold delimLen at h0
    rw [if_pos hc] at h0
    exact absurd h0 (by norm_num)
  have ht4 : ¬ (c :: rest).take 4 = ['\r', '\n', '\r', '\n'] := by
    intro hc
    unfold delimLen at h0
    rw [if_neg ht2, if_pos hc] at h0
    exact absurd h0 (by norm_num)
  have hle2 : 2 ≤ (c :: rest).length := by simp; omega
  by_cases hl4 : 4 ≤ (c :: rest).length
  · unfold delimLen
    rw [List.take_append_of_le_length hle2, List.take_append_of_le_length hl4,
      if_neg ht2, if_neg ht4]
  · have hr2 : rest.length = 2 := by simp at hl4 ⊢; omega
    obtain ⟨b1, b2, rfl⟩ := length_eq_two_aux rest hr2
    by_cases ht4' : ((c :: [b1, b2]) ++ t).take 4 = ['\r', '\n', '\r', '\n']
    · exfalso
      have heq : (c :: [b1, b2]) ++ t = c :: b1 :: b2 :: t := rfl
      rw [heq, List.take_succ_cons, List.take_succ_cons, List.take_succ_cons] at ht4'
      simp only [List.cons.injEq] at ht4'
      obtain ⟨hc, hb1, hb2, -⟩ := ht4'
      subst hc hb1 hb2
      have hnone : findFrameEnd ['\n', '\r'] = none := rfl
      rw [hnone] at hsome
      exact Option.noConfusion hsome
    · unfold delimLen
      rw [List.take_append_of_le_length hle2, if_neg ht2, if_neg ht4']

theorem findFrameEnd_append (cs t f r : List Char) (h : findFrameEnd cs = some (f, r)) :
    findFrameEnd (cs ++ t) = some (f, r ++ t) := by
  induction cs generalizing f r with
  | nil => simp [findFrameEnd] at h
  | cons c rest ih =>
    rw [findFrameEnd] at h
    by_cases hd : delimLen (c :: rest) = 0
    · rw [if_pos hd] at h
      cases hfr : findFrameEnd rest with
      | none => rw [hfr] at h; simp at h
      | some p =>
        obtain ⟨f', r'⟩ := p
        rw [hfr] at h
        simp at h
        obtain ⟨hf, hr⟩ := h
        subst hf
        subst hr
        have hzero : delimLen ((c :: rest) ++ t) = 0 :=
          delimLen_zero_append c rest t f' r' hd hfr
        rw [List.cons_append, findFrameEnd,
          if_pos (by rw [← List.cons_append]; exact hzero)]
        rw [ih f' r' hfr]
        simp
    · rw [if_neg hd] at h
      simp only [Option.some.injEq, Prod.mk.injEq] at h
      obtain ⟨hf, hr⟩ := h
      have hd' := delimLen_ne_zero_append (c :: rest) t hd
      have hle : delimLen (c :: rest) ≤ (c :: rest).length := by
        rcases delimLen_cases (c :: rest) with h0 | ⟨h2, hl⟩ | ⟨h4, hl⟩
        · exact absurd h0 hd
        · omega
        · omega
      rw [List.cons_append, findFrameEnd,
        if_neg (by rw [← List.cons_append, hd']; exact hd)]
      rw [← List.cons_append, hd', ← hf, ← hr,
        List.drop_append_of_le_length hle]
end MakeRequest

namespace MakeRequest

theorem splitFramesFuel_none (fuel : Nat) (cs : List Char) (h : findFrameEnd cs = none) :
    splitFramesFuel fuel cs = ([], cs) := by
  cases fuel with
  | zero => rfl
  | succ k => simp [splitFramesFuel, h]

theorem splitFramesFuel_congr :
    ∀ (n : ℕ) (cs : List Char), cs.length ≤ n →
      ∀ f₁ f₂ : ℕ, cs.length ≤ f₁ → cs.length ≤ f₂ →
        splitFramesFuel f₁ cs = splitFramesFuel f₂ cs := by
  intro n
  induction n with
  | zero =>
    intro cs h f₁ f₂ _ _
    have hnil : cs = [] := List.length_eq_zero.mp (Nat.le_zero.mp h)
    subst hnil
    rw [splitFramesFuel_none f₁ [] rfl, splitFramesFuel_none f₂ [] rfl]
  | succ k ih =>
    intro cs h f₁ f₂ h₁ h₂
    cases hf : findFrameEnd cs with
    | none => rw [splitFramesFuel_none f₁ cs hf, splitFramesFuel_none f₂ cs hf]
    | some p =>
      obtain ⟨fr, r⟩ := p
      have hlen := findFrameEnd_some_le cs fr r hf
      obtain ⟨a, rfl⟩ : ∃ a, f₁ = a + 1 := ⟨f₁ - 1, by omega⟩
      obtain ⟨b, rfl⟩ : ∃ b, f₂ = b + 1 := ⟨f₂ - 1, by omega⟩
      simp only [splitFramesFuel, hf]
      rw [ih r (by omega) a b (by omega) (by omega)]

theorem splitFrames_none (cs : List Char) (h : findFrameEnd cs = none) :
    splitFrames cs = ([], cs) :=
  splitFramesFuel_none cs.length cs h

theorem splitFrames_some (cs fr r : List Char) (hf : findFrameEnd cs = some (fr, r)) :
    splitFrames cs = (fr :: (splitFrames r).1, (splitFrames r).2) := by
  have hlen := findFrameEnd_some_le cs fr r hf
  obtain ⟨m, hm⟩ : ∃ m, cs.length = m + 1 := ⟨cs.length - 1, by omega⟩
  unfold splitFrames
  rw [hm]
  simp only [splitFramesFuel, hf]
  rw [splitFramesFuel_congr r.length r le_rfl m r.length (by omega) le_rfl]

theorem splitFrames_append (b t : List Char) :
    splitFrames (b ++ t) =
      ((splitFrames b).1 ++ (splitFrames ((splitFrames b).2 ++ t)).1,
        (splitFrames ((splitFrames b).2 ++ t)).2) := by
  suffices hgen : ∀ (n : ℕ) (b : List Char), b.length ≤ n → ∀ t : List Char,
      splitFrames (b ++ t) =
        ((splitFrames b).1 ++ (splitFrames ((splitFrames b).2 ++ t)).1,
          (splitFrames ((splitFrames b).2 ++ t)).2) by
    exact hgen b.length b le_rfl t
  intro n
  induction n with
  | zero =>
    intro b hb t
    have hnil : b = [] := List.length_eq_zero.mp (Nat.le_zero.mp hb)
    subst hnil
    rw [splitFrames_none [] rfl]
    simp
  | succ k ih =>
    intro b hb t
    cases hf : findFrameEnd b with
    | none =>
      rw [splitFrames_none b hf]
      simp
    | some p =>
      obtain ⟨fr, r⟩ := p
      have hlen := findFrameEnd_some_le b fr r hf
      have hfa := findFrameEnd_append b t fr r hf
      rw [splitFrames_some b fr r hf, splitFrames_some (b ++ t) fr (r ++ t) hfa]
      rw [ih r (by omega) t]
      simp

theorem findFrameEnd_splitFrames_rest (cs : List Char) :
    findFrameEnd (splitFrames cs).2 = none := by
  suffices hgen : ∀ (n : ℕ) (cs : List Char), cs.length ≤ n →
      findFrameEnd (splitFrames cs).2 = none by
    exact hgen cs.length cs le_rfl
  intro n
  induction n with
  | zero =>
    intro cs h
    have hnil : cs = [] := List.length_eq_zero.mp (Nat.le_zero.mp h)
    subst hnil
    rw [splitFrames_none [] rfl]
    rfl
  | succ k ih =>
    intro cs h
    cases hf : findFrameEnd cs with
    | none => rw [splitFrames_none cs hf]; exact hf
    | some p =>
      obtain ⟨fr, r⟩ := p
      have hlen := findFrameEnd_some_le cs fr r hf
      rw [splitFrames_some cs fr r hf]
      exact ih r (by omega)

end MakeRequest

namespace MakeRequest

theorem utf8FeedBytes_append (p a b : List Nat) :
    utf8FeedBytes p (a ++ b) =
      ((utf8FeedBytes (utf8FeedBytes p a).1 b).1,
        (utf8FeedBytes p a).2 ++ (utf8FeedBytes (utf8FeedBytes p a).1 b).2) := by
  induction a generalizing p with
  | nil => simp [utf8FeedBytes]
  | cons x xs ih => simp [utf8FeedBytes, ih (utf8Push p x).1, List.append_assoc]

theorem feedChunk_append (st : DecoderState) (a b : List Nat) :
    feedChunk st (a ++ b) =
      ((feedChunk (feedChunk st a).1 b).1,
        (feedChunk st a).2 ++ (feedChunk (feedChunk st a).1 b).2) := by
  simp only [feedChunk, utf8FeedBytes_append st.pendingBytes a b]
  rw [← List.append_assoc st.buffer]
  rw [splitFrames_append (st.buffer ++ (utf8FeedBytes st.pendingBytes a).2)
    (utf8FeedBytes (utf8FeedBytes st.pendingBytes a).1 b).2]
  rw [List.filterMap_append]

theorem feedChunk_rest_none (st : DecoderState) (c : List Nat) :
    findFrameEnd (feedChunk st c).1.buffer = none := by
  simp only [feedChunk]
  exact findFrameEnd_splitFrames_rest _

theorem feedChunks_flatten :
    ∀ (chunks : List (List Nat)) (st : DecoderState),
      findFrameEnd st.buffer = none →
      feedChunks st chunks = feedChunk st chunks.flatten := by
  intro chunks
  induction chunks with
  | nil =>
    intro st hst
    simp only [feedChunks, List.flatten_nil, feedChunk, utf8FeedBytes,
      List.append_nil]
    rw [splitFrames_none st.buffer hst]
    rfl
  | cons c rest ih =>
    intro st hst
    rw [List.flatten_cons, feedChunk_append st c rest.flatten]
    simp only [feedChunks]
    rw [ih (feedChunk st c).1 (feedChunk_rest_none st c)]

end MakeRequest

namespace MakeRequest

/-- C6: SSE decoding is independent of chunk boundaries — any two chunkings
of the same byte stream decode to the same events in the same order; in
particular, feeding the serialized frames `data: {"a":1}\n\n` and
`data: {"b":2}\n\n` as two chunks yields the events `{data:{a:1}}` then
`{data:{b:2}}`, and feeding `data: {"a":` then `1}\n\n` (split mid-payload)
yields exactly the one event `{data:{a:1}}`. -/
theorem C6_sse_chunk_independence :
    (∀ chunks₁ chunks₂ : List (List Nat), chunks₁.flatten = chunks₂.flatten →
        decodeChunks chunks₁ = decodeChunks chunks₂) ∧
    decodeChunks [utf8Encode ("data: \x7b\"a\":1\x7d\n\n".toList),
        utf8Encode ("data: \x7b\"b\":2\x7d\n\n".toList)]
      = [⟨"message".toList, [], none, .json (.obj [(['a'], .num 1)])⟩,
          ⟨"message".toList, [], none, .json (.obj [(['b'], .num 2)])⟩] ∧
    decodeChunks [utf8Encode ("data: \x7b\"a\":".toList),
        utf8Encode ("1\x7d\n\n".toList)]
      = [⟨"message".toList, [], none, .json (.obj [(['a'], .num 1)])⟩] := by
  refine ⟨fun c₁ c₂ h => ?_, rfl, rfl⟩
  unfold decodeChunks
  rw [feedChunks_flatten c₁ initDecoderState rfl,
    feedChunks_flatten c₂ initDecoderState rfl, h]

/-- C6 witness: the chunk-independence part applied to a concrete split —
the mid-payload two-chunk stream decodes identically to the same bytes as
one chunk. -/
theorem C6_witness :
    decodeChunks [utf8Encode ("data: \x7b\"a\":".toList) ++
        utf8Encode ("1\x7d\n\n".toList)]
      = decodeChunks [utf8Encode ("data: \x7b\"a\":".toList),
          utf8Encode ("1\x7d\n\n".toList)] :=
  C6_sse_chunk_independence.1 _ _ (by simp)

end MakeRequest

namespace MakeRequest

/-! ## C7, C8, C9 -/

/-- C7: with a cached, unexpired TokenRecord (`now < expiresAt`),
`applyAuth` attaches `Authorization: Bearer <accessToken>` and performs no
network call; with no valid cached record (nothing cached, no expiry, or
expired), it performs exactly one refresh call and attaches
`Authorization: Bearer <token>` for the fresh token. -/
theorem C7_applyAuth (st : OAuth2State) (now : Int) (freshTok : TokenRecord)
    (headers : List (List Char × List Char)) :
    (∀ tok exp, st.accessToken = some tok → st.expiresAt = some exp → now < exp →
      OAuth2.applyAuth st now freshTok headers
        = (st, [], headers ++
            [("Authorization".toList, "Bearer ".toList ++ tok)])) ∧
    (OAuth2.hasValidToken st now = false →
      OAuth2.applyAuth st now freshTok headers
        = (⟨some freshTok.accessToken, some freshTok.expiresAt⟩, [.refreshCall],
            headers ++
              [("Authorization".toList, "Bearer ".toList ++ freshTok.accessToken)])) := by
  constructor
  · intro tok exp h1 h2 h3
    simp [OAuth2.applyAuth, h1, h2, h3]
  · intro hv
    cases hacc : st.accessToken with
    | none => cases hexp : st.expiresAt <;> simp [OAuth2.applyAuth, hacc, hexp]
    | some tok =>
      cases hexp : st.expiresAt with
      | none => simp [OAuth2.applyAuth, hacc, hexp]
      | some exp =>
        simp only [OAuth2.hasValidToken, hacc, hexp,
          decide_eq_false_iff_not] at hv
        simp [OAuth2.applyAuth, hacc, hexp, hv]

/-- C7 witness: a manager holding a token expiring at instant 3600000 (one
hour after `now = 0`) serves `applyAuth` with the cached bearer token and
an empty effect list; a manager with nothing cached performs exactly one
refresh call and attaches the fresh bearer token. -/
theorem C7_witness :
    (OAuth2.applyAuth ⟨some "valid-token".toList, some 3600000⟩ 0 ⟨"t".toList, 1⟩ []
      = (⟨some "valid-token".toList, some 3600000⟩, [],
          [] ++ [("Authorization".toList, "Bearer ".toList ++ "valid-token".toList)])) ∧
    (OAuth2.applyAuth ⟨none, none⟩ 0 ⟨"fresh".toList, 3600000⟩ []
      = (⟨some "fresh".toList, some 3600000⟩, [.refreshCall],
          [] ++ [("Authorization".toList, "Bearer ".toList ++ "fresh".toList)])) :=
  ⟨(C7_applyAuth ⟨some "valid-token".toList, some 3600000⟩ 0 ⟨"t".toList, 1⟩ []).1
      "valid-token".toList 3600000 rfl rfl (by norm_num),
    (C7_applyAuth ⟨none, none⟩ 0 ⟨"fresh".toList, 3600000⟩ []).2 rfl⟩

/-- C8: accessing the event stream fails with
`StreamFormatError("Response is not an event stream")` exactly when
`wantStream` is false, fails with
`StreamFormatError("Response body is undefined")` exactly when
`wantStream` is true but the body is undefined, and succeeds exactly in
the remaining cases. -/
theorem C8_asEventStream_errors (opts : ResponseOpts) (resp : ResponseModel) :
    (asEventStream opts resp
        = .error (.streamFormatError "Response is not an event stream".toList)
      ↔ opts.responseStream = false) ∧
    (asEventStream opts resp
        = .error (.streamFormatError "Response body is undefined".toList)
      ↔ opts.responseStream = true ∧ resp.body = none) ∧
    ((asEventStream opts resp).isOk = true
      ↔ opts.responseStream = true ∧ resp.body.isSome = true) := by
  cases hs : opts.responseStream <;> cases hb : resp.body <;>
    simp [asEventStream, hs, hb, Except.isOk, Except.toBool]

/-- C9: on an OAuth2-configured token manager, the set-literal-credential
operation fails with `ConfigurationError` for every literal value, leaves
the manager's state unchanged, and never succeeds. -/
theorem C9_setValue_fails (st : OAuth2State) (value : List Char) :
    OAuth2.setValue st value
      = .error (.configurationError
          "an OAuth2 auth provider cannot be used as a requestMutator".toList) ∧
    OAuth2.setValueRun st value = st ∧
    (OAuth2.setValue st value).isOk = false :=
  ⟨rfl, rfl, rfl⟩

end MakeRequest
